import Mathlib

/-!
Verification development for the G-Mixup graph-augmentation example script
(examples/contrib/gmixup_graph_augmentation.py).

The script is embedded shallowly: tensors over nonnegative integers become
lists of naturals, float tensors become lists of rationals, and the in-place
mutation performed by create_node_features becomes a pure function returning
the updated list of graphs.  Library routines of the wider repository that
are not part of the example file itself (torch_geometric.utils.degree, the
data loader batching, the random permutation) are modelled from the spec,
with a doc comment marking each such definition.  The real-valued square
root used by torch.std_mean is abstracted as a rational-valued parameter
because no claim depends on its value, only on the shape and structure of
the features it produces.
-/

namespace GMixupExample

/-- Python int() applied to a rational: truncation toward zero. -/
def pyInt (q : ℚ) : Int := if 0 ≤ q then ⌊q⌋ else -⌊-q⌋

/-- One-hot vector of length n with a one at position k, as in
torch.nn.functional.one_hot followed by .float(). -/
def one_hot (k n : Nat) : List ℚ :=
  (List.range n).map fun i => if i = k then 1 else 0

/-- Modelled from the spec: torch_geometric.utils.num_nodes.maybe_num_nodes,
absent from src/. With no explicit node count it infers the count from the
index tensor as max(index) + 1, or 0 for an empty tensor. -/
def maybe_num_nodes (index : List Nat) : Nat :=
  match index with
  | [] => 0
  | _ :: _ => index.foldr max 0 + 1

/-- Modelled from the spec: torch_geometric.utils.degree, absent from src/.
It returns a vector of length maybe_num_nodes(index) whose entry i counts
the occurrences of i in the index tensor. -/
def degreeList (index : List Nat) : List Nat :=
  (List.range (maybe_num_nodes index)).map fun i => index.count i

/-- Shallow embedding of a torch_geometric Data object as used by the
script.  The edge_index tensor of shape 2 x E becomes a list of
(source, target) pairs; row 0 is the list of sources.  The integer class
label y is kept alongside the one-hot encoding y_hot that
create_node_features writes over it (the script replaces graph.y in place;
the embedding keeps both the raw and the encoded form as separate fields). -/
structure Graph where
  edge_index : List (Nat × Nat)
  y : Nat
  num_nodes : Nat
  x : List (List ℚ)
  y_hot : List ℚ
deriving DecidableEq, Repr

instance : Inhabited Graph := ⟨⟨[], 0, 0, [], []⟩⟩

/-- Row 0 of the edge_index tensor: the source endpoint of every edge. -/
def sourceRow (g : Graph) : List Nat := g.edge_index.map Prod.fst

/-- Value of torch.max over the whole 2 x E edge_index tensor (both rows),
taken as 0 for an empty tensor (where the script would raise). -/
def edgeIndexMax (ei : List (Nat × Nat)) : Nat :=
  (ei.map Prod.fst ++ ei.map Prod.snd).foldr max 0

/-- Node count implied by the edge list: one more than the largest endpoint
index, as computed by int(torch.max(graph.edge_index)) + 1. -/
def impliedNodeCount (ei : List (Nat × Nat)) : Nat := edgeIndexMax ei + 1

/-- Per-graph degree sequences of the dataset, each computed from the edge
source endpoints only (row 0 of edge_index), as in the script loop. -/
def all_degrees (dataset : List Graph) : List (List Nat) :=
  dataset.map fun g => degreeList (sourceRow g)

/-- Global maximum node degree across the dataset:
max(d.max().item() for d in all_degrees). -/
def maxDegreeOf (dataset : List Graph) : Nat :=
  ((all_degrees dataset).map fun d => d.foldr max 0).foldr max 0

/-- torch.std_mean over a list of rationals, with the square root of the
(unbiased, correction = 1) variance abstracted as the parameter sqrtFn:
no claim depends on the numeric value of the standard deviation. -/
def torch_std_mean (sqrtFn : ℚ → ℚ) (xs : List ℚ) : ℚ × ℚ :=
  let n : ℚ := xs.length
  let mean := xs.sum / n
  (sqrtFn ((xs.map fun v => (v - mean) ^ 2).sum / (n - 1)), mean)

/-- Dataset-wide standard deviation and mean of the concatenation of every
per-graph degree sequence: torch.std_mean(torch.cat(all_degrees).float()). -/
def datasetStdMean (sqrtFn : ℚ → ℚ) (dataset : List Graph) : ℚ × ℚ :=
  torch_std_mean sqrtFn (((all_degrees dataset).flatten).map fun d => (d : ℚ))

/-- Shallow embedding of create_node_features.  For every graph it rewrites
num_nodes from the edge endpoints and one-hot encodes the label; then a
single branch on the global maximum degree assigns either one-hot degree
features of width max_degree + 1 to every graph, or z-scored scalar degree
features to every graph. -/
def create_node_features (sqrtFn : ℚ → ℚ) (num_classes : Nat)
    (dataset : List Graph) : List Graph :=
  let degs := all_degrees dataset
  let dataset1 := dataset.map fun g =>
    { g with
      num_nodes := edgeIndexMax g.edge_index + 1
      y_hot := one_hot g.y num_classes }
  let max_degree : Nat := (degs.map fun d => d.foldr max 0).foldr max 0
  if max_degree < 2000 then
    (dataset1.zip degs).map fun gd =>
      { gd.1 with x := gd.2.map fun d => one_hot d (max_degree + 1) }
  else
    let sm := datasetStdMean sqrtFn dataset
    (dataset1.zip degs).map fun gd =>
      { gd.1 with x := gd.2.map fun d => [((d : ℚ) - sm.2) / sm.1] }

/-- Uniform feature width after create_node_features: the one-hot branch
produces rows of width max_degree + 1, the z-score branch rows of width 1. -/
def featureWidth (dataset : List Graph) : Nat :=
  if maxDegreeOf dataset < 2000 then maxDegreeOf dataset + 1 else 1

/-- Linear congruential step used to model the torch pseudo-random
generator as a deterministic function of the seed. -/
def lcg (s : Nat) : Nat :=
  (6364136223846793005 * s + 1442695040888963407) % 2 ^ 64

/-- Modelled from the spec: torch.manual_seed followed by torch.randperm,
both absent from src/.  The spec requires only a deterministic shuffle: the
model produces a permutation of [0, n) fully determined by the seed, here a
rotation of the identity ordering by a seed-derived offset. -/
def randperm (seed n : Nat) : List Nat :=
  (List.range n).rotate (lcg seed)

/-- Size of the training split: int(0.8 * len(ds)). -/
def ntrain (n : Nat) : Nat := (pyInt ((4 : ℚ) / 5 * n)).toNat

/-- Dataset indices assigned to the training split:
shuffled_indices[:ntrain]. -/
def trainIndices (seed n : Nat) : List Nat :=
  (randperm seed n).take (ntrain n)

/-- Dataset indices assigned to the test split: shuffled_indices[ntrain:]. -/
def testIndices (seed n : Nat) : List Nat :=
  (randperm seed n).drop (ntrain n)

/-- Result of the train/test split. -/
structure SplitResult where
  train : List Graph
  test : List Graph
deriving DecidableEq, Repr

/-- The 80/20 split of the script: shuffle the index range with the seeded
generator, take the leading int(0.8 * n) indices for training and the rest
for testing. -/
def splitDataset (seed : Nat) (ds : List Graph) : SplitResult :=
  { train := (trainIndices seed ds.length).map fun i => ds.getD i default
    test := (testIndices seed ds.length).map fun i => ds.getD i default }

/-- Number of synthetic graphs requested from the generator:
int(len(train) * args.aug_ratio). -/
def numSyntheticRequested (trainLen : Nat) (augMult : ℚ) : Int :=
  pyInt ((trainLen : ℚ) * augMult)

/-- Training pool handed to the data loader.  With mixup enabled it is the
training split followed by the graphs returned by the generator (called
with the requested sample count and the interpolation bounds); with
--vanilla it is the training split itself.  The generator GMixup.generate
is repository code absent from src/ and is abstracted as the parameter
generate. -/
def buildTrainingPool (generate : Nat → ℚ × ℚ → List Graph)
    (use_mixup : Bool) (augMult : ℚ) (bounds : ℚ × ℚ)
    (train : List Graph) : List Graph :=
  if use_mixup then
    train ++ generate (numSyntheticRequested train.length augMult).toNat bounds
  else
    train

/-- Lists held by the script after the split: the training split, the test
split, and the pool the data loader iterates. -/
structure PipelineState where
  train : List Graph
  test : List Graph
  pool : List Graph
deriving DecidableEq, Repr

/-- Split stage of the main script: produces the train and test lists. -/
def splitStage (seed : Nat) (ds : List Graph) : PipelineState :=
  { train := (splitDataset seed ds).train
    test := (splitDataset seed ds).test
    pool := [] }

/-- Augmentation stage: builds the training pool as a fresh list, leaving
the train and test lists of the state untouched. -/
def augmentStage (generate : Nat → ℚ × ℚ → List Graph) (use_mixup : Bool)
    (augMult : ℚ) (bounds : ℚ × ℚ) (st : PipelineState) : PipelineState :=
  { st with pool := buildTrainingPool generate use_mixup augMult bounds st.train }

/-- Index of the first maximum of a rational vector, as torch.argmax along
a one-hot label row. -/
def argmaxIdx : List ℚ → Nat
  | [] => 0
  | a :: rest =>
    match rest with
    | [] => 0
    | _ :: _ =>
      let j := argmaxIdx rest
      if rest.getD j 0 > a then j + 1 else 0

/-- Modelled from the spec: the data loader batching (DataLoader with
shuffle disabled for evaluation), absent from src/.  It yields consecutive
chunks of at most batch_size samples in order; the fuel argument bounds the
recursion and any fuel of at least the list length is enough when the batch
size is positive. -/
def chunkAux (k : Nat) : Nat → List Graph → List (List Graph)
  | 0, _ => []
  | _, [] => []
  | fuel + 1, l => l.take k :: chunkAux k fuel (l.drop k)

/-- Batches the evaluation loop iterates over. -/
def testBatches (batch_size : Nat) (test : List Graph) : List (List Graph) :=
  chunkAux batch_size test.length test

/-- Per-batch count of correct predictions:
(out == labels).sum() with labels = argmax of the one-hot y rows. -/
def countCorrect (predict : Graph → Nat) (batch : List Graph) : Nat :=
  (batch.filter fun g => predict g = argmaxIdx g.y_hot).length

/-- Accumulated correct predictions over the evaluation loop. -/
def totalCorrect (predict : Graph → Nat) (batch_size : Nat)
    (test : List Graph) : Nat :=
  ((testBatches batch_size test).map (countCorrect predict)).sum

/-- Accumulated sample count over the evaluation loop.  Modelled from the
spec: len(batch) for a loader batch, absent from src/, counts the graphs in
the batch (the spec reports the fraction of test samples predicted
correctly). -/
def totalSamples (batch_size : Nat) (test : List Graph) : Nat :=
  ((testBatches batch_size test).map List.length).sum

/-- Final reported accuracy: total_correct / total_samples. -/
def evaluate (predict : Graph → Nat) (batch_size : Nat)
    (test : List Graph) : ℚ :=
  (totalCorrect predict batch_size test : ℚ) / (totalSamples batch_size test : ℚ)

/-- Evaluation stage: computes the accuracy from the test list and returns
the pipeline state unchanged. -/
def evalStage (predict : Graph → Nat) (batch_size : Nat)
    (st : PipelineState) : ℚ × PipelineState :=
  (evaluate predict batch_size st.test, st)

/-- Observable counters of the training loop: how many optimizer steps and
scheduler steps have run, and the per-epoch reported mean losses. -/
structure LoopState where
  opt_steps : Nat
  sched_steps : Nat
  losses : List ℚ
deriving DecidableEq, Repr

/-- Body of one epoch over an abstract batch type: fold over the batches
accumulating the sample-weighted loss, the sample count, and one optimizer
step per batch; then one scheduler step after the batch loop; then report
total_loss / total_samples for the epoch. -/
def epochStep {β : Type} (lossFn : β → ℚ) (sizeFn : β → Nat)
    (batches : List β) (st : LoopState) : LoopState :=
  let inner := batches.foldl
    (fun (acc : ℚ × Nat × Nat) b =>
      (acc.1 + (sizeFn b : ℚ) * lossFn b, acc.2.1 + sizeFn b, acc.2.2 + 1))
    (0, 0, st.opt_steps)
  { opt_steps := inner.2.2
    sched_steps := st.sched_steps + 1
    losses := st.losses ++ [inner.1 / (inner.2.1 : ℚ)] }

/-- The training loop: for epoch in range(args.epochs), run one epoch body.
Termination is structural in the fixed epoch count; there is no early
stopping condition in the script. -/
def trainingLoop {β : Type} (lossFn : β → ℚ) (sizeFn : β → Nat)
    (batches : List β) (epochs : Nat) : LoopState :=
  (List.range epochs).foldl (fun st _ => epochStep lossFn sizeFn batches st)
    ⟨0, 0, []⟩

/-- Sample-weighted mean loss over a list of batches. -/
def weightedMeanLoss {β : Type} (lossFn : β → ℚ) (sizeFn : β → Nat)
    (batches : List β) : ℚ :=
  (batches.map fun b => (sizeFn b : ℚ) * lossFn b).sum
    / ((batches.map fun b => sizeFn b).sum : ℚ)

/-- Feature rows create_node_features assigns to one graph, as a function
of the global branch: one-hot degree rows below the threshold, z-scored
scalar rows otherwise. -/
def expectedFeatures (sqrtFn : ℚ → ℚ) (dataset : List Graph) (g : Graph) :
    List (List ℚ) :=
  if maxDegreeOf dataset < 2000 then
    (degreeList (sourceRow g)).map fun d => one_hot d (maxDegreeOf dataset + 1)
  else
    (degreeList (sourceRow g)).map fun d =>
      [((d : ℚ) - (datasetStdMean sqrtFn dataset).2)
        / (datasetStdMean sqrtFn dataset).1]

lemma length_one_hot (k n : Nat) : (one_hot k n).length = n := by
  simp [one_hot]

lemma le_foldr_max {l : List Nat} {x : Nat} (a : Nat) (hx : x ∈ l) :
    x ≤ l.foldr max a := by
  induction l with
  | nil => cases hx
  | cons b l ih =>
    rcases List.mem_cons.mp hx with h | h
    · subst h; exact le_max_left _ _
    · exact le_trans (ih h) (le_max_right _ _)

lemma foldr_max_eq_or_mem (l : List Nat) (a : Nat) :
    l.foldr max a = a ∨ l.foldr max a ∈ l := by
  induction l with
  | nil => left; rfl
  | cons b l ih =>
    simp only [List.foldr_cons]
    rcases max_cases b (l.foldr max a) with ⟨h1, _⟩ | ⟨h1, _⟩
    · right; rw [h1]; exact List.mem_cons_self _ _
    · rw [h1]
      rcases ih with h | h
      · left; exact h
      · right; exact List.mem_cons_of_mem _ h

lemma graphMap_getD {f : Graph → Graph} {l : List Graph} {i : Nat}
    (h : i < l.length) :
    (l.map f).getD i default = f (l.getD i default) := by
  have hm : i < (l.map f).length := by rw [List.length_map]; exact h
  rw [List.getD_eq_getElem?_getD, List.getElem?_eq_getElem hm,
    Option.getD_some, List.getElem_map,
    List.getD_eq_getElem?_getD, List.getElem?_eq_getElem h, Option.getD_some]

lemma map_zip_getD {f : Graph × List Nat → Graph} {l1 : List Graph}
    {l2 : List (List Nat)} {i : Nat} (h1 : i < l1.length)
    (h2 : i < l2.length) :
    ((l1.zip l2).map f).getD i default
      = f (l1.getD i default, l2.getD i []) := by
  have hz : i < (l1.zip l2).length := by rw [List.length_zip]; omega
  have hm : i < ((l1.zip l2).map f).length := by
    rw [List.length_map]; exact hz
  rw [List.getD_eq_getElem?_getD, List.getElem?_eq_getElem hm,
    Option.getD_some, List.getElem_map, List.getElem_zip,
    List.getD_eq_getElem?_getD l1, List.getElem?_eq_getElem h1,
    Option.getD_some, List.getD_eq_getElem?_getD l2,
    List.getElem?_eq_getElem h2, Option.getD_some]

lemma all_degrees_length (ds : List Graph) :
    (all_degrees ds).length = ds.length := by
  simp [all_degrees]

lemma all_degrees_getD (ds : List Graph) (i : Nat) (hi : i < ds.length) :
    (all_degrees ds).getD i [] = degreeList (sourceRow (ds.getD i default)) := by
  have hm : i < (all_degrees ds).length := by rw [all_degrees_length]; exact hi
  rw [all_degrees] at hm ⊢
  rw [List.getD_eq_getElem?_getD, List.getElem?_eq_getElem hm,
    Option.getD_some, List.getElem_map,
    List.getD_eq_getElem?_getD, List.getElem?_eq_getElem hi, Option.getD_some]

/-- Pointwise description of create_node_features: graph i of the output is
graph i of the input with num_nodes recomputed from the edge endpoints, the
label one-hot encoded, and the feature rows of the globally selected
branch. -/
lemma create_node_features_getD (sqrtFn : ℚ → ℚ) (nc : Nat)
    (ds : List Graph) (i : Nat) (hi : i < ds.length) :
    (create_node_features sqrtFn nc ds).getD i default =
      { ds.getD i default with
        num_nodes := edgeIndexMax (ds.getD i default).edge_index + 1
        y_hot := one_hot (ds.getD i default).y nc
        x := expectedFeatures sqrtFn ds (ds.getD i default) } := by
  have h1 : i < (ds.map fun g =>
      { g with
        num_nodes := edgeIndexMax g.edge_index + 1
        y_hot := one_hot g.y nc } : List Graph).length := by
    rw [List.length_map]; exact hi
  have h2 : i < (all_degrees ds).length := by
    rw [all_degrees_length]; exact hi
  simp only [create_node_features]
  have hmd : ((all_degrees ds).map fun d => d.foldr max 0).foldr max 0
      = maxDegreeOf ds := rfl
  rw [hmd]
  by_cases hb : maxDegreeOf ds < 2000
  · rw [if_pos hb, map_zip_getD h1 h2, graphMap_getD hi,
      all_degrees_getD ds i hi, expectedFeatures, if_pos hb]
  · rw [if_neg hb, map_zip_getD h1 h2, graphMap_getD hi,
      all_degrees_getD ds i hi, expectedFeatures, if_neg hb]

/-- Concrete two-graph dataset used by witnesses: a directed triangle and a
single edge, with an arbitrary stale num_nodes value on the first graph. -/
def dsA : List Graph :=
  [ { edge_index := [(0, 1), (1, 2), (2, 0)], y := 0, num_nodes := 7,
      x := [], y_hot := [] },
    { edge_index := [(0, 1)], y := 1, num_nodes := 0,
      x := [], y_hot := [] } ]

/-- C1: create_node_features applies exactly one feature-encoding branch to
the entire dataset, chosen by the single global maximum-degree value.  When
the global maximum degree is below 2000 every graph receives one-hot degree
rows of length max degree + 1; otherwise every graph receives the scalar
z-score of its degrees formed with the dataset-wide mean and standard
deviation.  The two encodings are never mixed within one dataset. -/
theorem branch_selected_globally (sqrtFn : ℚ → ℚ) (nc : Nat)
    (ds : List Graph) (i : Nat) (hi : i < ds.length) :
    (maxDegreeOf ds < 2000 →
      ((create_node_features sqrtFn nc ds).getD i default).x
        = (degreeList (sourceRow (ds.getD i default))).map
            fun d => one_hot d (maxDegreeOf ds + 1))
    ∧ (2000 ≤ maxDegreeOf ds →
      ((create_node_features sqrtFn nc ds).getD i default).x
        = (degreeList (sourceRow (ds.getD i default))).map
            fun d => [((d : ℚ) - (datasetStdMean sqrtFn ds).2)
                        / (datasetStdMean sqrtFn ds).1]) := by
  rw [create_node_features_getD sqrtFn nc ds i hi]
  constructor
  · intro hb
    simp [expectedFeatures, if_pos hb]
  · intro hb
    simp [expectedFeatures, if_neg (not_lt.mpr hb)]

/-- Witness for C1 at a concrete dataset and index. -/
theorem branch_selected_globally_witness :
    0 < dsA.length ∧
    ((maxDegreeOf dsA < 2000 →
      ((create_node_features (fun q => q) 2 dsA).getD 0 default).x
        = (degreeList (sourceRow (dsA.getD 0 default))).map
            fun d => one_hot d (maxDegreeOf dsA + 1))
    ∧ (2000 ≤ maxDegreeOf dsA →
      ((create_node_features (fun q => q) 2 dsA).getD 0 default).x
        = (degreeList (sourceRow (dsA.getD 0 default))).map
            fun d => [((d : ℚ) - (datasetStdMean (fun q => q) dsA).2)
                        / (datasetStdMean (fun q => q) dsA).1])) :=
  ⟨by decide, branch_selected_globally (fun q => q) 2 dsA 0 (by decide)⟩

/-- C2: after create_node_features, every feature row of every graph has
the same width: global max degree + 1 in the one-hot branch and exactly 1
in the z-score branch, so feature dimensionality is uniform across the
dataset. -/
theorem feature_width_uniform (sqrtFn : ℚ → ℚ) (nc : Nat) (ds : List Graph)
    (i j : Nat) (hi : i < ds.length)
    (hj : j < ((create_node_features sqrtFn nc ds).getD i default).x.length) :
    (((create_node_features sqrtFn nc ds).getD i default).x.getD j []).length
      = featureWidth ds := by
  rw [create_node_features_getD sqrtFn nc ds i hi] at hj ⊢
  simp only [expectedFeatures] at hj ⊢
  by_cases hb : maxDegreeOf ds < 2000
  · rw [if_pos hb] at hj ⊢
    rw [featureWidth, if_pos hb]
    rw [List.length_map] at hj
    rw [List.getD_eq_getElem?_getD,
      List.getElem?_eq_getElem (by rw [List.length_map]; exact hj),
      Option.getD_some, List.getElem_map, length_one_hot]
  · rw [if_neg hb] at hj ⊢
    rw [featureWidth, if_neg hb]
    rw [List.length_map] at hj
    rw [List.getD_eq_getElem?_getD,
      List.getElem?_eq_getElem (by rw [List.length_map]; exact hj),
      Option.getD_some, List.getElem_map, List.length_singleton]

/-- Witness for C2 at a concrete dataset, graph index and row index. -/
theorem feature_width_uniform_witness :
    0 < dsA.length ∧
    0 < ((create_node_features (fun q => q) 2 dsA).getD 0 default).x.length ∧
    (((create_node_features (fun q => q) 2 dsA).getD 0 default).x.getD 0 []).length
      = featureWidth dsA :=
  ⟨by decide, by decide,
    feature_width_uniform (fun q => q) 2 dsA 0 0 (by decide) (by decide)⟩

/-- C6: create_node_features overwrites each graph's num_nodes with the
node count implied by the edge endpoints: one more than the largest
endpoint appearing in either row of edge_index.  Every endpoint lies below
that count, the bound is attained by some edge when the graph has edges,
and the result is independent of any stale num_nodes value stored before
the call. -/
theorem num_nodes_recomputed (sqrtFn : ℚ → ℚ) (nc : Nat) (ds : List Graph)
    (i stale : Nat) (hi : i < ds.length)
    (hne : (ds.getD i default).edge_index ≠ []) :
    ((create_node_features sqrtFn nc ds).getD i default).num_nodes
        = impliedNodeCount (ds.getD i default).edge_index
    ∧ (∀ e ∈ (ds.getD i default).edge_index,
        e.1 < impliedNodeCount (ds.getD i default).edge_index
        ∧ e.2 < impliedNodeCount (ds.getD i default).edge_index)
    ∧ (∃ e ∈ (ds.getD i default).edge_index,
        e.1 = edgeIndexMax (ds.getD i default).edge_index
        ∨ e.2 = edgeIndexMax (ds.getD i default).edge_index)
    ∧ ((create_node_features sqrtFn nc
          (ds.map fun g => { g with num_nodes := stale })).getD i
            default).num_nodes
        = impliedNodeCount (ds.getD i default).edge_index := by
  refine ⟨?_, ?_, ?_, ?_⟩
  · rw [create_node_features_getD sqrtFn nc ds i hi]
    rfl
  · intro e he
    constructor
    · have h1 : e.1 ∈ ((ds.getD i default).edge_index.map Prod.fst
          ++ (ds.getD i default).edge_index.map Prod.snd) :=
        List.mem_append_left _ (List.mem_map_of_mem Prod.fst he)
      exact Nat.lt_succ_of_le (le_foldr_max 0 h1)
    · have h2 : e.2 ∈ ((ds.getD i default).edge_index.map Prod.fst
          ++ (ds.getD i default).edge_index.map Prod.snd) :=
        List.mem_append_right _ (List.mem_map_of_mem Prod.snd he)
      exact Nat.lt_succ_of_le (le_foldr_max 0 h2)
  · rcases foldr_max_eq_or_mem ((ds.getD i default).edge_index.map Prod.fst
        ++ (ds.getD i default).edge_index.map Prod.snd) 0 with h0 | hmem
    · rcases List.exists_mem_of_ne_nil _ hne with ⟨e, he⟩
      refine ⟨e, he, Or.inl ?_⟩
      have h1 : e.1 ∈ ((ds.getD i default).edge_index.map Prod.fst
          ++ (ds.getD i default).edge_index.map Prod.snd) :=
        List.mem_append_left _ (List.mem_map_of_mem Prod.fst he)
      have := le_foldr_max 0 h1
      rw [edgeIndexMax, h0]
      omega
    · rcases List.mem_append.mp hmem with h | h
      · rcases List.mem_map.mp h with ⟨e, he, heq⟩
        exact ⟨e, he, Or.inl heq⟩
      · rcases List.mem_map.mp h with ⟨e, he, heq⟩
        exact ⟨e, he, Or.inr heq⟩
  · have hi2 : i < (ds.map fun g =>
        ({ g with num_nodes := stale } : Graph)).length := by
      rw [List.length_map]; exact hi
    rw [create_node_features_getD sqrtFn nc _ i
        (by rw [List.length_map]; exact hi)]
    rw [graphMap_getD hi]
    rfl

/-- Witness for C6 at a concrete dataset, index and stale value. -/
theorem num_nodes_recomputed_witness :
    0 < dsA.length ∧ (dsA.getD 0 default).edge_index ≠ [] ∧
    (((create_node_features (fun q => q) 2 dsA).getD 0 default).num_nodes
        = impliedNodeCount (dsA.getD 0 default).edge_index
    ∧ (∀ e ∈ (dsA.getD 0 default).edge_index,
        e.1 < impliedNodeCount (dsA.getD 0 default).edge_index
        ∧ e.2 < impliedNodeCount (dsA.getD 0 default).edge_index)
    ∧ (∃ e ∈ (dsA.getD 0 default).edge_index,
        e.1 = edgeIndexMax (dsA.getD 0 default).edge_index
        ∨ e.2 = edgeIndexMax (dsA.getD 0 default).edge_index)
    ∧ ((create_node_features (fun q => q) 2
          (dsA.map fun g => { g with num_nodes := 99 })).getD 0
            default).num_nodes
        = impliedNodeCount (dsA.getD 0 default).edge_index) :=
  ⟨by decide, by decide,
    num_nodes_recomputed (fun q => q) 2 dsA 0 99 (by decide) (by decide)⟩

lemma ntrain_eq (n : Nat) : ntrain n = 4 * n / 5 := by
  have h0 : (0 : ℚ) ≤ 4 / 5 * n := by positivity
  rw [ntrain, pyInt, if_pos h0]
  have h1 : (4 : ℚ) / 5 * n = ((4 * n : Nat) : ℚ) / ((5 : Nat) : ℚ) := by
    push_cast; ring
  rw [h1, Int.floor_toNat, Nat.floor_div_nat, Nat.floor_natCast]

lemma ntrain_le (n : Nat) : ntrain n ≤ n := by
  rw [ntrain_eq]; omega

lemma randperm_perm (seed n : Nat) : (randperm seed n).Perm (List.range n) :=
  List.rotate_perm _ _

lemma randperm_length (seed n : Nat) : (randperm seed n).length = n := by
  rw [randperm, List.length_rotate, List.length_range]

lemma randperm_nodup (seed n : Nat) : (randperm seed n).Nodup :=
  ((randperm_perm seed n).nodup_iff).mpr (List.nodup_range n)

lemma trainIndices_length (seed n : Nat) :
    (trainIndices seed n).length = ntrain n := by
  rw [trainIndices, List.length_take, randperm_length,
    min_eq_left (ntrain_le n)]

lemma testIndices_length (seed n : Nat) :
    (testIndices seed n).length = n - ntrain n := by
  rw [testIndices, List.length_drop, randperm_length]

lemma splitDataset_train_length (seed : Nat) (ds : List Graph) :
    (splitDataset seed ds).train.length = ntrain ds.length := by
  rw [splitDataset]
  simp only [List.length_map]
  exact trainIndices_length seed ds.length

lemma splitDataset_test_length (seed : Nat) (ds : List Graph) :
    (splitDataset seed ds).test.length = ds.length - ntrain ds.length := by
  rw [splitDataset]
  simp only [List.length_map]
  exact testIndices_length seed ds.length

/-- C4: the split takes int(0.8 * n) graphs for training and the remaining
n - int(0.8 * n) for testing; the index lists partition the full index
range (their concatenation is a permutation of it and they are disjoint),
the training share is the floor of 4n/5, and for n at least 2 both sides
are nonempty, an 80/20 ratio within rounding. -/
theorem split_sizes_partition (seed : Nat) (ds : List Graph)
    (h2 : 2 ≤ ds.length) :
    (splitDataset seed ds).train.length = ntrain ds.length
    ∧ (splitDataset seed ds).test.length = ds.length - ntrain ds.length
    ∧ (splitDataset seed ds).train.length
        + (splitDataset seed ds).test.length = ds.length
    ∧ (trainIndices seed ds.length ++ testIndices seed ds.length).Perm
        (List.range ds.length)
    ∧ List.Disjoint (trainIndices seed ds.length) (testIndices seed ds.length)
    ∧ 5 * ntrain ds.length ≤ 4 * ds.length
    ∧ 4 * ds.length < 5 * (ntrain ds.length + 1)
    ∧ 1 ≤ ntrain ds.length
    ∧ 1 ≤ ds.length - ntrain ds.length := by
  have he := ntrain_eq ds.length
  have hle := ntrain_le ds.length
  refine ⟨splitDataset_train_length seed ds, splitDataset_test_length seed ds,
    ?_, ?_, ?_, by omega, by omega, by omega, by omega⟩
  · rw [splitDataset_train_length, splitDataset_test_length]
    omega
  · rw [trainIndices, testIndices, List.take_append_drop]
    exact randperm_perm seed ds.length
  · rw [trainIndices, testIndices]
    exact List.disjoint_take_drop (randperm_nodup seed ds.length) le_rfl

/-- Witness for C4 at a concrete two-graph dataset. -/
theorem split_sizes_partition_witness :
    2 ≤ dsA.length ∧
    ((splitDataset 42 dsA).train.length = ntrain dsA.length
    ∧ (splitDataset 42 dsA).test.length = dsA.length - ntrain dsA.length
    ∧ (splitDataset 42 dsA).train.length
        + (splitDataset 42 dsA).test.length = dsA.length
    ∧ (trainIndices 42 dsA.length ++ testIndices 42 dsA.length).Perm
        (List.range dsA.length)
    ∧ List.Disjoint (trainIndices 42 dsA.length) (testIndices 42 dsA.length)
    ∧ 5 * ntrain dsA.length ≤ 4 * dsA.length
    ∧ 4 * dsA.length < 5 * (ntrain dsA.length + 1)
    ∧ 1 ≤ ntrain dsA.length
    ∧ 1 ≤ dsA.length - ntrain dsA.length) :=
  ⟨by decide, split_sizes_partition 42 dsA (by decide)⟩

/-- Dataset of one hundred default graphs, the size of the example scenario
in the spec. -/
def dsB : List Graph := List.replicate 100 default

/-- C8: the split is a deterministic function of the seed for any dataset:
equal seeds give the same shuffled index permutation and the same train and
test lists; in particular, on a dataset of one hundred graphs the split is
always 80 train and 20 test. -/
theorem split_deterministic (seed1 seed2 : Nat) (ds : List Graph)
    (hseed : seed1 = seed2) :
    randperm seed1 ds.length = randperm seed2 ds.length
    ∧ splitDataset seed1 ds = splitDataset seed2 ds
    ∧ (ds.length = 100 →
        (splitDataset seed1 ds).train.length = 80
        ∧ (splitDataset seed1 ds).test.length = 20) := by
  subst hseed
  refine ⟨rfl, rfl, fun h100 => ⟨?_, ?_⟩⟩
  · rw [splitDataset_train_length, h100, ntrain_eq]
  · rw [splitDataset_test_length, h100, ntrain_eq]

/-- Witness for C8 at a fixed seed and a concrete hundred-graph dataset. -/
theorem split_deterministic_witness :
    (42 : Nat) = 42 ∧
    (randperm 42 dsB.length = randperm 42 dsB.length
    ∧ splitDataset 42 dsB = splitDataset 42 dsB
    ∧ (dsB.length = 100 →
        (splitDataset 42 dsB).train.length = 80
        ∧ (splitDataset 42 dsB).test.length = 20)) :=
  ⟨rfl, split_deterministic 42 42 dsB rfl⟩

/-- C3: with augmentation enabled the generator is asked for exactly
int(len(train) * aug_ratio) graphs, the floor of that product for a
nonnegative ratio, and the pool passed to the loader is the training split
followed by exactly the graphs the generator returned; with --vanilla the
pool is exactly the training split. -/
theorem training_pool_augmentation (generate : Nat → ℚ × ℚ → List Graph)
    (augMult : ℚ) (bounds : ℚ × ℚ) (train : List Graph)
    (h : 0 ≤ augMult) :
    numSyntheticRequested train.length augMult
        = ⌊(train.length : ℚ) * augMult⌋
    ∧ ((numSyntheticRequested train.length augMult).toNat : Int)
        = ⌊(train.length : ℚ) * augMult⌋
    ∧ buildTrainingPool generate true augMult bounds train
        = train
          ++ generate (numSyntheticRequested train.length augMult).toNat bounds
    ∧ buildTrainingPool generate false augMult bounds train = train := by
  have h0 : (0 : ℚ) ≤ (train.length : ℚ) * augMult :=
    mul_nonneg (Nat.cast_nonneg _) h
  have hreq : numSyntheticRequested train.length augMult
      = ⌊(train.length : ℚ) * augMult⌋ := by
    rw [numSyntheticRequested, pyInt, if_pos h0]
  refine ⟨hreq, ?_, rfl, rfl⟩
  rw [hreq, Int.toNat_of_nonneg (Int.floor_nonneg.mpr h0)]

/-- Witness for C3 at a concrete ratio, bounds, generator and training
split. -/
theorem training_pool_augmentation_witness :
    (0 : ℚ) ≤ 1 / 2 ∧
    (numSyntheticRequested dsA.length (1 / 2)
        = ⌊(dsA.length : ℚ) * (1 / 2)⌋
    ∧ ((numSyntheticRequested dsA.length (1 / 2)).toNat : Int)
        = ⌊(dsA.length : ℚ) * (1 / 2)⌋
    ∧ buildTrainingPool (fun k _ => List.replicate k default) true (1 / 2)
        (1 / 10, 1 / 5) dsA
        = dsA ++ (fun k _ => (List.replicate k default : List Graph))
            (numSyntheticRequested dsA.length (1 / 2)).toNat (1 / 10, 1 / 5)
    ∧ buildTrainingPool (fun k _ => List.replicate k default) false (1 / 2)
        (1 / 10, 1 / 5) dsA = dsA) :=
  ⟨by norm_num,
    training_pool_augmentation (fun k _ => List.replicate k default) (1 / 2)
      (1 / 10, 1 / 5) dsA (by norm_num)⟩

/-- C9: after the split neither the train list nor the test list changes:
the augmentation stage builds the pool as a fresh list while leaving the
train and test fields equal to their post-split values, and the evaluation
stage returns the state unchanged, so the test list read at evaluation time
equals the test list produced by the split. -/
theorem split_lists_never_mutated (generate : Nat → ℚ × ℚ → List Graph)
    (predict : Graph → Nat) (use_mixup : Bool) (augMult : ℚ)
    (bounds : ℚ × ℚ) (batch_size seed : Nat) (ds : List Graph) :
    (augmentStage generate use_mixup augMult bounds (splitStage seed ds)).train
        = (splitStage seed ds).train
    ∧ (augmentStage generate use_mixup augMult bounds (splitStage seed ds)).test
        = (splitStage seed ds).test
    ∧ (evalStage predict batch_size
        (augmentStage generate use_mixup augMult bounds (splitStage seed ds))).2
        = augmentStage generate use_mixup augMult bounds (splitStage seed ds)
    ∧ (evalStage predict batch_size
        (augmentStage generate use_mixup augMult bounds
          (splitStage seed ds))).2.test
        = (splitDataset seed ds).test :=
  ⟨rfl, rfl, rfl, rfl⟩

lemma trainingLoop_succ {β : Type} (lossFn : β → ℚ) (sizeFn : β → Nat)
    (batches : List β) (e : Nat) :
    trainingLoop lossFn sizeFn batches (e + 1)
      = epochStep lossFn sizeFn batches (trainingLoop lossFn sizeFn batches e) := by
  rw [trainingLoop, trainingLoop, List.range_succ, List.foldl_append,
    List.foldl_cons, List.foldl_nil]

lemma epoch_fold {β : Type} (lossFn : β → ℚ) (sizeFn : β → Nat)
    (batches : List β) (L : ℚ) (S O : Nat) :
    batches.foldl
      (fun (acc : ℚ × Nat × Nat) b =>
        (acc.1 + (sizeFn b : ℚ) * lossFn b, acc.2.1 + sizeFn b, acc.2.2 + 1))
      (L, S, O)
      = (L + (batches.map fun b => (sizeFn b : ℚ) * lossFn b).sum,
         S + (batches.map fun b => sizeFn b).sum,
         O + batches.length) := by
  induction batches generalizing L S O with
  | nil => simp
  | cons b bs ih =>
    simp only [List.foldl_cons, List.map_cons, List.sum_cons, List.length_cons]
    rw [ih]
    simp only [Prod.mk.injEq]
    refine ⟨by ring, by omega, by omega⟩

lemma epochStep_eq {β : Type} (lossFn : β → ℚ) (sizeFn : β → Nat)
    (batches : List β) (st : LoopState) :
    epochStep lossFn sizeFn batches st =
      { opt_steps := st.opt_steps + batches.length
        sched_steps := st.sched_steps + 1
        losses := st.losses ++ [weightedMeanLoss lossFn sizeFn batches] } := by
  rw [epochStep, epoch_fold]
  simp [weightedMeanLoss]

/-- C7: the training loop runs exactly the configured number of epochs and
then stops (one reported loss per epoch, no early stopping), performs one
optimizer step per mini-batch for a total of epochs times the batch count,
one scheduler step per epoch, and reports the sample-weighted mean loss of
each epoch. -/
theorem training_loop_counts {β : Type} (lossFn : β → ℚ) (sizeFn : β → Nat)
    (batches : List β) (epochs : Nat) :
    (trainingLoop lossFn sizeFn batches epochs).sched_steps = epochs
    ∧ (trainingLoop lossFn sizeFn batches epochs).opt_steps
        = epochs * batches.length
    ∧ (trainingLoop lossFn sizeFn batches epochs).losses
        = List.replicate epochs (weightedMeanLoss lossFn sizeFn batches)
    ∧ (trainingLoop lossFn sizeFn batches epochs).losses.length = epochs := by
  induction epochs with
  | zero => exact ⟨rfl, by simp [trainingLoop], rfl, rfl⟩
  | succ e ih =>
    obtain ⟨h1, h2, h3, _⟩ := ih
    rw [trainingLoop_succ, epochStep_eq]
    refine ⟨by simp [h1], by simp [h2]; ring, ?_, ?_⟩
    · simp only [h3]
      rw [List.replicate_succ']
    · simp [h3]

lemma maybe_num_nodes_ne_nil {l : List Nat} (h : l ≠ []) :
    maybe_num_nodes l = l.foldr max 0 + 1 := by
  cases l with
  | nil => exact absurd rfl h
  | cons a t => rfl

lemma chunkAux_flatten (k : Nat) (hk : 0 < k) :
    ∀ (fuel : Nat) (l : List Graph), l.length ≤ fuel →
      (chunkAux k fuel l).flatten = l := by
  intro fuel
  induction fuel with
  | zero =>
    intro l hl
    have h : l = [] := List.length_eq_zero.mp (Nat.le_zero.mp hl)
    subst h
    rfl
  | succ f ih =>
    intro l hl
    cases l with
    | nil => rfl
    | cons a t =>
      show ((a :: t).take k :: chunkAux k f ((a :: t).drop k)).flatten = a :: t
      rw [List.flatten_cons, ih ((a :: t).drop k) ?_, List.take_append_drop]
      rw [List.length_drop]
      simp only [List.length_cons] at hl ⊢
      omega

lemma totalSamples_eq (batch_size : Nat) (test : List Graph)
    (hk : 0 < batch_size) :
    totalSamples batch_size test = test.length := by
  rw [totalSamples, testBatches, ← List.length_flatten,
    chunkAux_flatten batch_size hk test.length test le_rfl]

lemma totalCorrect_le (predict : Graph → Nat) (batch_size : Nat)
    (test : List Graph) :
    totalCorrect predict batch_size test ≤ totalSamples batch_size test := by
  rw [totalCorrect, totalSamples]
  apply List.sum_le_sum
  intro b _
  exact List.length_filter_le _ b

/-- C5: over a non-empty test split the accumulated correct count never
exceeds the accumulated sample count, the sample count equals the size of
the test split, and the reported accuracy total_correct / total_samples
lies in the closed unit interval. -/
theorem accuracy_in_unit_interval (predict : Graph → Nat) (batch_size : Nat)
    (test : List Graph) (hbs : 0 < batch_size) (hne : test ≠ []) :
    totalCorrect predict batch_size test ≤ totalSamples batch_size test
    ∧ totalSamples batch_size test = test.length
    ∧ 0 ≤ evaluate predict batch_size test
    ∧ evaluate predict batch_size test ≤ 1 := by
  have hc := totalCorrect_le predict batch_size test
  have hs := totalSamples_eq batch_size test hbs
  have hpos : 0 < (totalSamples batch_size test : ℚ) := by
    rw [hs]
    exact_mod_cast List.length_pos.mpr hne
  refine ⟨hc, hs, ?_, ?_⟩
  · exact div_nonneg (by positivity) (le_of_lt hpos)
  · rw [evaluate, div_le_one hpos]
    exact_mod_cast hc

/-- Witness for C5 at a constant predictor, batch size one and a concrete
test split. -/
theorem accuracy_in_unit_interval_witness :
    0 < 1 ∧ dsA ≠ [] ∧
    (totalCorrect (fun _ => 0) 1 dsA ≤ totalSamples 1 dsA
    ∧ totalSamples 1 dsA = dsA.length
    ∧ 0 ≤ evaluate (fun _ => 0) 1 dsA
    ∧ evaluate (fun _ => 0) 1 dsA ≤ 1) :=
  ⟨by decide, by decide,
    accuracy_in_unit_interval (fun _ => 0) 1 dsA (by decide) (by decide)⟩

/-- Single-graph dataset whose only edge is (0, 1): node 1 occurs only as
a target, so its degree sequence from row 0 has one entry while the
recorded node count is two. -/
def dsC : List Graph :=
  [ { edge_index := [(0, 1)], y := 0, num_nodes := 0, x := [], y_hot := [] } ]

/-- C10: in the one-hot branch the feature matrix of a graph with at least
one edge has exactly one more row than the largest source endpoint of its
edges, because the degree sequence is computed from row 0 of edge_index
only; on the single-edge graph (0, 1) this gives one feature row while the
recomputed num_nodes is two, strictly more rows of metadata than of
features. -/
theorem degree_from_sources_only (sqrtFn : ℚ → ℚ) (nc : Nat)
    (ds : List Graph) (i : Nat) (hmax : maxDegreeOf ds < 2000)
    (hi : i < ds.length) (hne : sourceRow (ds.getD i default) ≠ []) :
    ((create_node_features sqrtFn nc ds).getD i default).x.length
        = (sourceRow (ds.getD i default)).foldr max 0 + 1
    ∧ ((create_node_features (fun q => q) 1 dsC).getD 0 default).x.length
        < ((create_node_features (fun q => q) 1 dsC).getD 0 default).num_nodes := by
  constructor
  · rw [create_node_features_getD sqrtFn nc ds i hi]
    show (expectedFeatures sqrtFn ds (ds.getD i default)).length = _
    rw [expectedFeatures, if_pos hmax, List.length_map, degreeList,
      List.length_map, List.length_range, maybe_num_nodes_ne_nil hne]
  · decide

/-- Witness for C10 at the single-edge dataset. -/
theorem degree_from_sources_only_witness :
    maxDegreeOf dsC < 2000 ∧ 0 < dsC.length
    ∧ sourceRow (dsC.getD 0 default) ≠ [] ∧
    (((create_node_features (fun q => q) 1 dsC).getD 0 default).x.length
        = (sourceRow (dsC.getD 0 default)).foldr max 0 + 1
    ∧ ((create_node_features (fun q => q) 1 dsC).getD 0 default).x.length
        < ((create_node_features (fun q => q) 1 dsC).getD 0 default).num_nodes) :=
  ⟨by decide, by decide, by decide,
    degree_from_sources_only (fun q => q) 1 dsC 0 (by decide) (by decide)
      (by decide)⟩

end GMixupExample
